import Mathlib

/-!
Verification of the shared request/response pipeline of the
tailscale-client-go library (v2 package, with the earlier v1 variant where
a claim references it).

The Go code is shallowly embedded: pure data flow becomes Lean functions,
error returns become `Except`, and the external collaborators that the
library treats as black boxes (the HTTP transport, the JSON
encoder/decoder, the hujson standardizer) are passed in as explicit
function parameters, so that the branching logic of the pipeline itself is
modelled exactly and every theorem quantifies over the collaborators.

Wire bytes are modelled as `String` (Go strings and byte slices are byte
sequences; no claim depends on non-UTF-8 bytes), and URL paths as
`List Char` so that the percent-escaping and path-cleaning steps of
`net/url` can be reasoned about by structural induction.
-/

namespace TS

/-! ## JSON values (bodies handed to the JSON marshaller) -/

/-- A JSON value, used as the model of an arbitrary marshalable Go value
handed to `json.Marshal` by the request builder. -/
inductive Json where
  | null
  | bool (b : Bool)
  | num (n : Int)
  | str (s : String)
  | arr (elems : List Json)
  | obj (members : List (String × Json))

/-! ## The structured API error (v2 client.go, type APIError) -/

/-- One element of the `data` field of an API error
(v2 client.go, type APIErrorData). -/
structure APIErrorData where
  user : String
  errors : List String
deriving DecidableEq

/-- The structured error returned by the Tailscale API
(v2 client.go, type APIError). The `status` field is unexported in Go and
never populated from JSON; the normalizer assigns it after decoding. -/
structure APIError where
  message : String
  data : List APIErrorData
  status : Nat
deriving DecidableEq

/-! ## The response normalizer (v2 client.go, Client.do)

`Client.do` executes the request, reads the whole body, and then branches
on the status code and on the dynamic type of the output destination.
The model takes the transport outcome (`c.HTTP.Do` plus `io.ReadAll`,
merged: both failure modes are returned verbatim) as an argument and
the JSON collaborators as function parameters:

* `unmarshalOut body cur` models `json.Unmarshal(body, out)` into the
  caller's typed destination holding `cur`;
* `unmarshalErrBody body` models `json.Unmarshal(body, &apiErr)` into a
  fresh `APIError`, yielding the JSON-visible fields (message, data);
* `jsonValid` models `json.Valid`;
* `standardize` models `hujson.Standardize`.
-/

/-- An HTTP response as seen by the normalizer after the body has been
read in full. -/
structure Response where
  statusCode : Nat
  body : String
deriving DecidableEq

/-- The dynamic type of the `out interface{}` argument of `Client.do`:
`nil`, a `*[]byte` destination, or any other (typed) destination holding a
current value of type `α`. -/
inductive Out (α : Type) where
  | none
  | rawBytes (cur : String)
  | typed (cur : α)
deriving DecidableEq

/-- The error classes `Client.do` can return: a transport/read error
surfaced verbatim, a decode failure (from `json.Unmarshal` or
`hujson.Standardize`), or the structured API error. -/
inductive DoError where
  | transport (msg : String)
  | decode (msg : String)
  | api (e : APIError)
deriving DecidableEq

/-- Model of v2 `Client.do` (client.go): the response normalizer.
Returns the operation's outcome together with the final contents of the
output destination. -/
def clientDo {α : Type} (unmarshalOut : String → α → Except String α)
    (unmarshalErrBody : String → Except String (String × List APIErrorData))
    (jsonValid : String → Bool) (standardize : String → Except String String)
    (transport : Except String Response) (out : Out α) :
    Except DoError Unit × Out α :=
  match transport with
  | .error e => (.error (.transport e), out)
  | .ok res =>
    if 200 ≤ res.statusCode ∧ res.statusCode < 300 then
      match out with
      | .none => (.ok (), out)
      | .rawBytes _ => (.ok (), .rawBytes res.body)
      | .typed cur =>
        match if jsonValid res.body then .ok res.body else standardize res.body with
        | .error e => (.error (.decode e), out)
        | .ok body =>
          match unmarshalOut body cur with
          | .error e => (.error (.decode e), out)
          | .ok v => (.ok (), .typed v)
    else if 400 ≤ res.statusCode then
      match unmarshalErrBody res.body with
      | .error e => (.error (.decode e), out)
      | .ok (msg, data) => (.error (.api ⟨msg, data, res.statusCode⟩), out)
    else
      (.ok (), out)

/-- Model of v2 `IsNotFound` (client.go): true exactly when the error is an
`APIError` whose status is 404. -/
def isNotFound : DoError → Bool
  | .api e => e.status == 404
  | _ => false

/-! ## URL construction (v2 client.go, Client.buildURL / buildTailnetURL)

`buildURL` percent-escapes each path element with `url.PathEscape` and
joins them onto the base URL with `(*url.URL).JoinPath`, which in turn
joins with `/` and runs `path.Clean` over the result (dropping empty, `.`
and `..` elements). The models below translate `net/url.shouldEscape`
(mode `encodePathSegment`), `url.PathEscape`, `path.Clean`, `path.Join`
and `URL.JoinPath` from the Go standard library sources, over `List Char`.
-/

/-- Go `net/url.shouldEscape(c, encodePathSegment)`: alphanumerics and
`-._~` are kept; of the special bytes `$&+,/:;=?@` exactly `/;,?` are
escaped; everything else is escaped. -/
def shouldEscape (c : Char) : Bool :=
  if ('a' ≤ c ∧ c ≤ 'z') ∨ ('A' ≤ c ∧ c ≤ 'Z') ∨ ('0' ≤ c ∧ c ≤ '9') then
    false
  else if c = '-' ∨ c = '_' ∨ c = '.' ∨ c = '~' then
    false
  else if c = '$' ∨ c = '&' ∨ c = '+' ∨ c = ',' ∨ c = '/' ∨ c = ':' ∨
      c = ';' ∨ c = '=' ∨ c = '?' ∨ c = '@' then
    c = '/' ∨ c = ';' ∨ c = ',' ∨ c = '?'
  else
    true

/-- The UTF-8 bytes of a character (Go strings are byte sequences and
escaping operates on bytes). -/
def utf8Bytes (c : Char) : List Nat :=
  let v := c.toNat
  if v < 0x80 then [v]
  else if v < 0x800 then [0xC0 + v / 0x40, 0x80 + v % 0x40]
  else if v < 0x10000 then
    [0xE0 + v / 0x1000, 0x80 + v / 0x40 % 0x40, 0x80 + v % 0x40]
  else
    [0xF0 + v / 0x40000, 0x80 + v / 0x1000 % 0x40, 0x80 + v / 0x40 % 0x40,
      0x80 + v % 0x40]

/-- Upper-case hexadecimal digit, as in Go `net/url` (`"0123456789ABCDEF"`). -/
def hexUpper (n : Nat) : Char :=
  if n < 10 then Char.ofNat (48 + n) else Char.ofNat (55 + n)

/-- The three characters `%XX` Go emits for one escaped byte. -/
def escByte (b : Nat) : List Char :=
  ['%', hexUpper (b / 16), hexUpper (b % 16)]

/-- All `%XX` triples for the UTF-8 bytes of one escaped character. -/
def escChar (c : Char) : List Char :=
  (utf8Bytes c).foldr (fun b acc => escByte b ++ acc) []

/-- Go `url.PathEscape`: escape every byte for which `shouldEscape` holds,
keep the rest. -/
def pathEscape : List Char → List Char
  | [] => []
  | c :: rest => (if shouldEscape c then escChar c else [c]) ++ pathEscape rest

/-- Split on a separator character (Go `strings.Split` with a one-byte
separator, as used by the segment view of `path.Clean`). -/
def splitOnChar (sep : Char) : List Char → List (List Char)
  | [] => [[]]
  | c :: rest =>
    if c = sep then
      [] :: splitOnChar sep rest
    else
      match splitOnChar sep rest with
      | [] => [[c]]
      | s :: ss => (c :: s) :: ss

/-- Join with a separator character (Go `strings.Join` with `"/"`). -/
def joinSep : List (List Char) → List Char
  | [] => []
  | [x] => x
  | x :: xs => x ++ '/' :: joinSep xs

/-- The element loop of Go `path.Clean`, on the list of `/`-separated
segments, with the output kept as a reversed stack: empty and `.` elements
are dropped, `..` pops the previous element (and is dropped at the root of
a rooted path, kept at the front of an unrooted one). -/
def processSegs (rooted : Bool) : List (List Char) → List (List Char) → List (List Char)
  | [], out => out
  | s :: rest, out =>
    if s = [] ∨ s = ['.'] then
      processSegs rooted rest out
    else if s = ['.', '.'] then
      match out with
      | [] =>
        if rooted then processSegs rooted rest []
        else processSegs rooted rest [['.', '.']]
      | t :: out' =>
        if t = ['.', '.'] then processSegs rooted rest (['.', '.'] :: t :: out')
        else processSegs rooted rest out'
    else
      processSegs rooted rest (s :: out)

/-- The reassembled output of the `path.Clean` element loop. -/
def pathCleanBody (rooted : Bool) (segs0 : List (List Char)) : List Char :=
  joinSep (processSegs rooted segs0 []).reverse

/-- Go `path.Clean`, via the segment view of its documented semantics:
an empty path cleans to `.`, a rooted path keeps its root, and an
unrooted path whose elements all vanish cleans to `.`. -/
def pathClean (p : List Char) : List Char :=
  if p = [] then ['.']
  else if p.head? = some '/' then '/' :: pathCleanBody true (splitOnChar '/' p)
  else if pathCleanBody false (splitOnChar '/' p) = [] then ['.']
  else pathCleanBody false (splitOnChar '/' p)

/-- Go `path.Join`: drop leading empty elements, join the rest with `/`,
then `Clean`; all-empty input yields the empty path. -/
def pathJoin (elems : List (List Char)) : List Char :=
  match elems.dropWhile (· = []) with
  | [] => []
  | es => pathClean (joinSep es)

/-- Whether a path ends in `/` (Go `strings.HasSuffix(s, "/")`). -/
def endsSlash (p : List Char) : Bool :=
  p.getLast? = some '/'

/-- The trailing-slash restoration step of `(*url.URL).JoinPath`: when
the last element ended in `/` but `path.Join` dropped it, put one back. -/
def urlJoinFix (all : List (List Char)) (p : List Char) : List Char :=
  if endsSlash (all.getLastD []) ∧ ¬ endsSlash p then p ++ ['/'] else p

/-- Go `(*url.URL).JoinPath` restricted to the escaped path: prepend the
base path, `path.Join` everything (rooting a relative base first and
stripping the added root afterwards), and restore a trailing slash that
`path.Join` removed. -/
def urlJoinPath (basePath : List Char) (elems : List (List Char)) : List Char :=
  urlJoinFix (basePath :: elems)
    (if basePath.head? = some '/' then pathJoin (basePath :: elems)
     else (pathJoin (('/' :: basePath) :: elems)).drop 1)

/-- The path as rendered by `(*url.URL).String()` for a URL with a
non-empty host: a relative escaped path gets a leading `/`. -/
def requestPath (p : List Char) : List Char :=
  if p ≠ [] ∧ p.head? ≠ some '/' then '/' :: p else p

/-- The non-empty `/`-separated segments of a rendered path. -/
def urlPathSegments (p : List Char) : List (List Char) :=
  (splitOnChar '/' p).filter (· ≠ [])

/-- The client configuration fields the modelled pipeline reads
(v2 client.go, type Client). `baseURLPath` is the escaped path of
`BaseURL`; it is empty for the default base `https://api.tailscale.com`. -/
structure Client where
  baseURLPath : List Char
  userAgent : String
  apiKey : String
  tailnet : List Char

/-- Model of v2 `Client.buildURL`: prefix `/api/v2`, escape every path
element individually, and `JoinPath` onto the base URL. -/
def Client.buildURL (c : Client) (pathElements : List (List Char)) : List Char :=
  urlJoinPath c.baseURLPath ("/api/v2".toList :: pathElements.map pathEscape)

/-- Model of v2 `Client.buildTailnetURL`: `buildURL` with `tailnet` and the
configured tailnet name prepended to the path elements. -/
def Client.buildTailnetURL (c : Client) (pathElements : List (List Char)) : List Char :=
  c.buildURL ("tailnet".toList :: c.tailnet :: pathElements)

/-! ## The request builder (v2 client.go, Client.buildRequest)

The `body any` parameter of `requestBody` is a Go dynamic value inspected
by a type switch: a `string`, a `[]byte`, or anything else (marshalled as
JSON). `json.Marshal` is a collaborator and is passed in as a function
parameter, so that its possible failure is represented. The `nil` context
failure of `http.NewRequestWithContext` is modelled through an
`Option Unit` context argument. -/

/-- The dynamic type of a request body handed to `requestBody`
(v2 client.go, the type switch in `Client.buildRequest`). -/
inductive ReqBody where
  | str (s : String)
  | bytes (b : String)
  | typed (v : Json)

/-- v2 client.go, type requestParams. -/
structure RequestParams where
  headers : List (String × String)
  body : Option ReqBody
  contentType : String

/-- v2 client.go, `defaultContentType`. -/
def defaultContentType : String := "application/json"

/-- The initial `requestParams` value of `Client.buildRequest`: only
`contentType` is preset. -/
def initialRequestParams : RequestParams :=
  { headers := [], body := Option.none, contentType := defaultContentType }

/-- v2 client.go, `requestBody`. -/
def requestBody (body : ReqBody) : RequestParams → RequestParams :=
  fun rof => { rof with body := some body }

/-- v2 client.go, `requestHeaders`. -/
def requestHeaders (headers : List (String × String)) : RequestParams → RequestParams :=
  fun rof => { rof with headers := headers }

/-- v2 client.go, `requestContentType`. -/
def requestContentType (ct : String) : RequestParams → RequestParams :=
  fun rof => { rof with contentType := ct }

/-- Applying the option functions in order to the initial params
(the `for _, opt := range opts` loop of `Client.buildRequest`). -/
def applyRequestOptions (opts : List (RequestParams → RequestParams)) : RequestParams :=
  opts.foldl (fun rof opt => opt rof) initialRequestParams

/-- `http.Header.Set`: replace the value of a key, or append it. -/
def setHeader (hs : List (String × String)) (k v : String) : List (String × String) :=
  match hs with
  | [] => [(k, v)]
  | (k', v') :: rest =>
    if k' = k then (k, v) :: rest else (k', v') :: setHeader rest k v

/-- A wire-ready request as produced by `Client.buildRequest`. `basicAuth`
models `req.SetBasicAuth(user, password)`. -/
structure Request where
  method : String
  url : List Char
  bodyBytes : String
  headers : List (String × String)
  basicAuth : Option (String × String)
deriving DecidableEq

/-- The body type switch of `Client.buildRequest`: a `string` body is
used verbatim, a `[]byte` body is used verbatim, anything else is
marshalled as JSON; a `nil` body yields no bytes. -/
def bodyBytesOf (marshal : Json → Except String String) :
    Option ReqBody → Except String String
  | Option.none => .ok ""
  | some (.str s) => .ok s
  | some (.bytes b) => .ok b
  | some (.typed v) => marshal v

/-- Model of v2 `Client.buildRequest` (client.go), continued. `marshal`
models `json.Marshal`; `ctx = Option.none` models a nil `context.Context`,
on which `http.NewRequestWithContext` fails. -/
def Client.buildRequest (c : Client) (ctx : Option Unit) (method : String)
    (uri : List Char) (opts : List (RequestParams → RequestParams))
    (marshal : Json → Except String String) : Except String Request :=
  let rof := applyRequestOptions opts
  match bodyBytesOf marshal rof.body with
  | .error e => .error e
  | .ok bodyBytes =>
    match ctx with
    | Option.none => .error "net/http: nil Context"
    | some _ =>
      let headers : List (String × String) := []
      let headers :=
        if c.userAgent ≠ "" then setHeader headers "User-Agent" c.userAgent
        else headers
      let headers := rof.headers.foldl (fun hs kv => setHeader hs kv.1 kv.2) headers
      let headers :=
        match rof.body with
        | Option.none => setHeader headers "Accept" rof.contentType
        | some _ => setHeader headers "Content-Type" rof.contentType
      .ok { method := method, url := uri, bodyBytes := bodyBytes,
            headers := headers,
            basicAuth := if c.apiKey ≠ "" then some (c.apiKey, "") else Option.none }

/-! ## Resource operations referenced by the claims -/

/-- Model of v2 `DNSResource.SetPreferences` (dns.go). The DNS preferences
value is an arbitrary marshalable value, modelled as `Json`; `transport`
models the HTTP round trip for the built request. Note the construction
error branch: the Go code reads `if err != nil { return nil }`, so a
`buildRequest` failure is translated to a success return. -/
def dnsSetPreferences
    (unmarshalErrBody : String → Except String (String × List APIErrorData))
    (jsonValid : String → Bool) (standardize : String → Except String String)
    (marshal : Json → Except String String) (c : Client) (ctx : Option Unit)
    (preferences : Json) (transport : Request → Except String Response) :
    Except DoError Unit :=
  match c.buildRequest ctx "POST" (c.buildTailnetURL ["dns".toList, "preferences".toList])
      [requestBody (.typed preferences)] marshal with
  | .error _ => .ok ()
  | .ok req =>
    (clientDo (α := Unit) (fun _ a => .ok a) unmarshalErrBody jsonValid standardize
      (transport req) Out.none).1

/-- The `acl any` argument of `PolicyFileResource.Validate`: an `ACL`
struct (marshalable, modelled as `Json`), a HuJSON string, or any other
type (rejected by the type switch). -/
inductive ACLBody where
  | typed (v : Json)
  | str (s : String)
  | other

/-- The error values `PolicyFileResource.Validate` can return: the type
switch error, a construction error, an error from `Client.do`, or the
application-level validation failure built from a non-empty message. -/
inductive ValidateError where
  | typeErr
  | buildErr (msg : String)
  | doErr (e : DoError)
  | validationFailed (msg : String) (data : List APIErrorData)
deriving DecidableEq

/-- The fresh `var response APIError` destination of Validate. -/
def zeroAPIError : APIError := ⟨"", [], 0⟩

/-- The path elements of the ACL validation endpoint. -/
def aclValidateElems : List (List Char) := ["acl".toList, "validate".toList]

/-- The request options Validate passes: the body, plus the HuJSON
content type when the ACL is a raw string. -/
def validateReqOpts (acl : ACLBody) : List (RequestParams → RequestParams) :=
  match acl with
  | .typed v => [requestBody (.typed v)]
  | .str s => [requestBody (.str s), requestContentType "application/hujson"]
  | .other => []

/-- The value held by a typed output destination (used to read back the
`response` variable of Validate after `Client.do` returns). -/
def typedValue {α : Type} (dflt : α) : Out α → α
  | .typed a => a
  | _ => dflt

/-- Model of v2 `PolicyFileResource.Validate` (policyfile.go): reject
non-ACL body types, build the request against
`/api/v2/tailnet/:tailnet/acl/validate`, run it with a fresh `APIError`
as the output destination, propagate errors, and treat a decoded non-empty
`message` as a validation failure even on a success status. -/
def policyFileValidate
    (unmarshalOut : String → APIError → Except String APIError)
    (unmarshalErrBody : String → Except String (String × List APIErrorData))
    (jsonValid : String → Bool) (standardize : String → Except String String)
    (marshal : Json → Except String String) (c : Client) (ctx : Option Unit)
    (acl : ACLBody) (transport : Request → Except String Response) :
    Except ValidateError Unit :=
  match acl with
  | .other => .error .typeErr
  | _ =>
    match c.buildRequest ctx "POST" (c.buildTailnetURL aclValidateElems)
        (validateReqOpts acl) marshal with
    | .error e => .error (.buildErr e)
    | .ok req =>
      match clientDo unmarshalOut unmarshalErrBody jsonValid standardize
          (transport req) (Out.typed zeroAPIError) with
      | (.error e, _) => .error (.doErr e)
      | (.ok (), out') =>
        let response := typedValue zeroAPIError out'
        if response.message ≠ "" then
          .error (.validationFailed response.message response.data)
        else
          .ok ()

/-! ## The typed Duration codec (v2 client.go, type Duration)

`Duration` wraps `time.Duration` (an `int64` count of nanoseconds, modelled
as `Int`). `UnmarshalText` maps the empty text to `"0s"` and then calls
`time.ParseDuration`; `MarshalText` renders via `time.Duration.String`.
Both standard-library functions are translated below from the Go `time`
package sources. The only divergence: where Go computes the contribution
of a fractional digit string via `float64` arithmetic
(`uint64(float64(f) * (float64(unit) / scale))`), the model computes
`f * unit / scale` exactly in `Nat`; no claim exercises fractional input.
Go error strings quote the offending input; the models keep the fixed
message prefix only. -/

/-- ASCII decimal digit test, as in the `time` package parsing loops. -/
def isDigitChar (c : Char) : Bool := '0' ≤ c ∧ c ≤ '9'

/-- Go `time.leadingInt`: consume leading decimal digits into a `uint64`,
failing on overflow past `1<<63`. -/
def leadingInt (x : Nat) : List Char → Except Unit (Nat × List Char)
  | [] => .ok (x, [])
  | c :: rest =>
    if ¬ isDigitChar c then .ok (x, c :: rest)
    else if x > 2 ^ 63 / 10 then .error ()
    else
      let x2 := x * 10 + (c.toNat - 48)
      if x2 > 2 ^ 63 then .error ()
      else leadingInt x2 rest

/-- Go `time.leadingFraction`: consume leading digits as the fraction
numerator together with its scale, silently stopping accumulation on
overflow. -/
def leadingFraction (x scale : Nat) (overflow : Bool) :
    List Char → (Nat × Nat × List Char)
  | [] => (x, scale, [])
  | c :: rest =>
    if ¬ isDigitChar c then (x, scale, c :: rest)
    else if overflow then leadingFraction x scale overflow rest
    else if x > (2 ^ 63 - 1) / 10 then leadingFraction x scale true rest
    else
      let y := x * 10 + (c.toNat - 48)
      if y > 2 ^ 63 then leadingFraction x scale true rest
      else leadingFraction y (scale * 10) false rest

/-- Go `time.unitMap`: nanoseconds per unit suffix. -/
def unitLookup (u : List Char) : Option Nat :=
  if u = "ns".toList then some 1
  else if u = "us".toList then some 1000
  else if u = "µs".toList then some 1000
  else if u = "μs".toList then some 1000
  else if u = "ms".toList then some 1000000
  else if u = "s".toList then some 1000000000
  else if u = "m".toList then some 60000000000
  else if u = "h".toList then some 3600000000000
  else Option.none

/-- The `for s != ""` loop of Go `time.ParseDuration`, one
number-fraction-unit group per iteration. Every iteration consumes at
least one character, so `fuel` larger than the input length never runs
out. -/
def parseDurationLoop : Nat → Nat → List Char → Except String Nat
  | 0, _, _ => .error "time: invalid duration"
  | _ + 1, d, [] => .ok d
  | fuel + 1, d, c :: s' =>
    let s := c :: s'
    if ¬ (c = '.' ∨ isDigitChar c) then .error "time: invalid duration"
    else
      match leadingInt 0 s with
      | .error () => .error "time: invalid duration"
      | .ok (v, s1) =>
        let pre : Bool := s1.length != s.length
        let fourth : Nat × Nat × List Char × Bool :=
          match s1 with
          | '.' :: s1' =>
            let (f, scale, s2) := leadingFraction 0 1 false s1'
            (f, scale, s2, s2.length != s1'.length)
          | _ => (0, 1, s1, false)
        match fourth with
        | (f, scale, s2, post) =>
          if !pre && !post then .error "time: invalid duration"
          else
            let uChars := s2.takeWhile fun c => ¬ (c = '.' ∨ isDigitChar c)
            let s3 := s2.dropWhile fun c => ¬ (c = '.' ∨ isDigitChar c)
            if uChars = [] then .error "time: missing unit in duration"
            else
              match unitLookup uChars with
              | Option.none => .error "time: unknown unit in duration"
              | some unit =>
                if v > 2 ^ 63 / unit then .error "time: invalid duration"
                else
                  let v1 := v * unit
                  let v2 := if f > 0 then v1 + f * unit / scale else v1
                  if f > 0 ∧ v2 > 2 ^ 63 then .error "time: invalid duration"
                  else if d + v2 > 2 ^ 63 then .error "time: invalid duration"
                  else parseDurationLoop fuel (d + v2) s3

/-- Go `time.ParseDuration`. -/
def parseDuration (str : String) : Except String Int :=
  let s0 := str.toList
  let signed : Bool × List Char :=
    match s0 with
    | '-' :: rest => (true, rest)
    | '+' :: rest => (false, rest)
    | s => (false, s)
  match signed with
  | (neg, s) =>
    if s = ['0'] then .ok 0
    else if s = [] then .error "time: invalid duration"
    else
      match parseDurationLoop (s.length + 1) 0 s with
      | .error e => .error e
      | .ok d =>
        if neg then .ok (-(d : Int))
        else if d > 2 ^ 63 - 1 then .error "time: invalid duration"
        else .ok (d : Int)

/-- Go `time.fmtFrac`: the fraction text (with leading `.`, trailing
zeros omitted, empty when the fraction is zero) for `v` with `prec`
fractional digits, together with `v / 10 ^ prec`. -/
def fmtFracAux : Nat → Nat → Bool → List Char → (List Char × Nat)
  | 0, v, print, acc => (if print then '.' :: acc else acc, v)
  | i + 1, v, print, acc =>
    let digit := v % 10
    let print2 := print || digit ≠ 0
    let acc2 := if print2 then Char.ofNat (48 + digit) :: acc else acc
    fmtFracAux i (v / 10) print2 acc2

/-- See `fmtFracAux`. -/
def fmtFrac (v prec : Nat) : String × Nat :=
  match fmtFracAux prec v false [] with
  | (cs, v') => (String.mk cs, v')

/-- Decimal rendering of a natural number (Go `time.fmtInt`). -/
def natDec (n : Nat) : String := Nat.repr n

/-- Go `time.Duration.format`, driving `Duration.String`: sub-second
durations use `ns`, `µs` or `ms` with the matching precision; larger
durations use `h`, `m` and a fractional-second `s` field; zero is `"0s"`. -/
def durFormat (d : Int) : String :=
  let neg := d < 0
  let u := d.natAbs
  let core :=
    if u < 1000000000 then
      if u = 0 then "0s"
      else if u < 1000 then natDec u ++ "ns"
      else if u < 1000000 then
        match fmtFrac u 3 with
        | (frac, ip) => natDec ip ++ frac ++ "µs"
      else
        match fmtFrac u 6 with
        | (frac, ip) => natDec ip ++ frac ++ "ms"
    else
      match fmtFrac u 9 with
      | (frac, secs) =>
        let secPart := natDec (secs % 60) ++ frac ++ "s"
        let mins := secs / 60
        if mins > 0 then
          let minPart := natDec (mins % 60) ++ "m" ++ secPart
          let hours := mins / 60
          if hours > 0 then natDec hours ++ "h" ++ minPart else minPart
        else secPart
  if neg then "-" ++ core else core

/-- v2 client.go, `Duration.MarshalText` (via `Duration.String`). -/
def durationMarshalText (d : Int) : String := durFormat d

/-- v2 client.go, `Duration.UnmarshalText`: empty text is read as `"0s"`,
then `time.ParseDuration` decides. -/
def durationUnmarshalText (b : String) : Except String Int :=
  parseDuration (if b = "" then "0s" else b)

/-- Decoding a JSON value into a `Duration` field holding `cur`:
`encoding/json` ignores `null` (leaving the previous value in place),
hands the contents of a JSON string to `UnmarshalText`, and rejects any
other value shape for a `TextUnmarshaler`. -/
def jsonDecodeDuration (j : Json) (cur : Int) : Except String Int :=
  match j with
  | .null => .ok cur
  | .str s => durationUnmarshalText s
  | _ => .error "json: cannot unmarshal value into Duration"

/-! ## The typed nullable timestamp (v2 devices.go, type Time)

`Time.UnmarshalJSON` returns early (keeping the zero value) on the raw
JSON bytes `""`, and otherwise defers to `json.Unmarshal` into the wrapped
`time.Time`, i.e. to `time.Time.UnmarshalJSON`, which requires a quoted
RFC 3339 string and parses it with the strict `parseRFC3339` fast path.
The parsed civil fields plus zone offset are the model of the resulting
instant; `gotimeUnix` maps them to Unix seconds (days via the standard
civil-from-days formula) to identify the UTC instant. -/

/-- The result of parsing an RFC 3339 timestamp: civil fields and the
zone offset, with the Go zero `time.Time` being January 1 of year 1. -/
structure GoTime where
  year : Nat
  month : Nat
  day : Nat
  hour : Nat
  minute : Nat
  second : Nat
  nsec : Nat
  offsetSec : Int
deriving DecidableEq

/-- The Go zero `time.Time`: 0001-01-01T00:00:00 UTC. -/
def zeroGoTime : GoTime := ⟨1, 1, 1, 0, 0, 0, 0, 0⟩

/-- Leap-year rule used by `time.daysIn`. -/
def isLeapYear (y : Nat) : Bool := y % 4 = 0 ∧ (y % 100 ≠ 0 ∨ y % 400 = 0)

/-- Go `time.daysIn`: the number of days of a month. -/
def daysInMonth (m year : Nat) : Nat :=
  if m = 1 ∨ m = 3 ∨ m = 5 ∨ m = 7 ∨ m = 8 ∨ m = 10 ∨ m = 12 then 31
  else if m = 2 then (if isLeapYear year then 29 else 28)
  else 30

/-- Two ASCII digits within an inclusive range (the `parseUint` helper of
Go `time.parseRFC3339`). -/
def num2 (a b : Char) (lo hi : Nat) : Option Nat :=
  if isDigitChar a ∧ isDigitChar b then
    let x := (a.toNat - 48) * 10 + (b.toNat - 48)
    if lo ≤ x ∧ x ≤ hi then some x else Option.none
  else Option.none

/-- Four ASCII digits within an inclusive range. -/
def num4 (a b c d : Char) (lo hi : Nat) : Option Nat :=
  if isDigitChar a ∧ isDigitChar b ∧ isDigitChar c ∧ isDigitChar d then
    let x := ((a.toNat - 48) * 10 + (b.toNat - 48)) * 100 +
      (c.toNat - 48) * 10 + (d.toNat - 48)
    if lo ≤ x ∧ x ≤ hi then some x else Option.none
  else Option.none

/-- Numeric value of a digit list (Go `time.atoi` on digits). -/
def digitsVal (ds : List Char) : Nat :=
  ds.foldl (fun acc c => acc * 10 + (c.toNat - 48)) 0

/-- Go `time.parseNanoseconds`: at most nine fractional digits count,
scaled up to nanoseconds. -/
def parseNanos (digits : List Char) : Nat :=
  let kept := digits.take 9
  digitsVal kept * 10 ^ (9 - kept.length)

/-- The time-zone tail of `parseRFC3339`: `Z`, or a `±hh:mm` offset. -/
def parseZone (s : List Char) : Option Int :=
  match s with
  | ['Z'] => some 0
  | [sn, zh1, zh2, colon, zm1, zm2] =>
    if (sn = '+' ∨ sn = '-') ∧ colon = ':' then
      match num2 zh1 zh2 0 23, num2 zm1 zm2 0 59 with
      | some hr, some mm =>
        let off : Int := (hr * 60 + mm) * 60
        some (if sn = '-' then -off else off)
      | _, _ => Option.none
    else Option.none
  | _ => Option.none

/-- Go `time.parseRFC3339`: the strict RFC 3339 parser behind the
`time.RFC3339` layout, validating every field range (month 1-12, day
within the month, hour 0-23, minute and second 0-59) and requiring `Z` or
a `±hh:mm` zone. -/
def parseRFC3339 (s : List Char) : Option GoTime :=
  match s with
  | y1 :: y2 :: y3 :: y4 :: sep1 :: m1 :: m2 :: sep2 :: d1 :: d2 :: sepT ::
      h1 :: h2 :: col1 :: mi1 :: mi2 :: col2 :: s1 :: s2 :: rest =>
    if sep1 = '-' ∧ sep2 = '-' ∧ sepT = 'T' ∧ col1 = ':' ∧ col2 = ':' then
      match num4 y1 y2 y3 y4 0 9999, num2 m1 m2 1 12 with
      | some year, some month =>
        match num2 d1 d2 1 (daysInMonth month year), num2 h1 h2 0 23,
            num2 mi1 mi2 0 59, num2 s1 s2 0 59 with
        | some day, some hour, some minute, some second =>
          let fracDigits :=
            match rest with
            | '.' :: t => if (t.headD 'x').isDigit then t.takeWhile Char.isDigit else []
            | _ => []
          let nsec := parseNanos fracDigits
          let rest2 := if fracDigits = [] then rest else rest.drop (1 + fracDigits.length)
          match parseZone rest2 with
          | some off =>
            some ⟨year, month, day, hour, minute, second, nsec, off⟩
          | Option.none => Option.none
        | _, _, _, _ => Option.none
      | _, _ => Option.none
    else Option.none
  | _ => Option.none

/-- Go `time.Time.UnmarshalJSON`: `null` keeps the previous value, the
input must otherwise be a quoted string, and its contents must parse as
strict RFC 3339. -/
def timeTimeUnmarshalJSON (data : String) (cur : GoTime) : Except String GoTime :=
  if data = "null" then .ok cur
  else
    let l := data.toList
    if l.length < 2 ∨ l.head? ≠ some '\"' ∨ l.getLast? ≠ some '\"' then
      .error "Time.UnmarshalJSON: input is not a JSON string"
    else
      match parseRFC3339 (l.drop 1).dropLast with
      | some t => .ok t
      | Option.none => .error "Time.UnmarshalJSON: cannot parse as RFC3339"

/-- Model of v2 `Time.UnmarshalJSON` (devices.go): the raw JSON bytes
`""` keep the time at its current (zero) value; anything else is decoded
by the wrapped `time.Time`. -/
def tsTimeUnmarshalJSON (data : String) (cur : GoTime) : Except String GoTime :=
  if data = "\"\"" then .ok cur
  else timeTimeUnmarshalJSON data cur

/-- Days since 1970-01-01 of a civil date (standard era-based formula,
as computed by the `time` package absolute-date arithmetic). -/
def daysFromCivil (y m d : Nat) : Int :=
  let y' := if m ≤ 2 then y - 1 else y
  let era := y' / 400
  let yoe := y' % 400
  let mp := if m > 2 then m - 3 else m + 9
  let doy := (153 * mp + 2) / 5 + d - 1
  let doe := yoe * 365 + yoe / 4 - yoe / 100 + doy
  ((era * 146097 + doe : Nat) : Int) - 719468

/-- The Unix-seconds instant denoted by a parsed timestamp (`time.Time.Unix`
after the zone offset is removed). -/
def gotimeUnix (t : GoTime) : Int :=
  daysFromCivil t.year t.month t.day * 86400 +
    (t.hour * 3600 + t.minute * 60 + t.second : Nat) - t.offsetSec

/-- Success test for an `Except` outcome. -/
def exceptOk {ε α : Type} : Except ε α → Bool
  | .ok _ => true
  | .error _ => false

/-! ## Concrete instantiations used to exercise the theorems -/

/-- A concrete client: default base URL (empty base path), default user
agent, an API key, and a tailnet name. -/
def cW : Client := ⟨[], "tailscale-client-go", "key123", "example.com".toList⟩

/-- A client with every field empty except the base path (still the
default base URL). -/
def cW0 : Client := ⟨[], "ua", "", []⟩

/-- A trivial typed-destination decoder for a `Unit` destination. -/
def uoU : String → Unit → Except String Unit := fun _ a => .ok a

/-- A `json.Valid` oracle that accepts everything. -/
def jvTrue : String → Bool := fun _ => true

/-- A `json.Valid` oracle that rejects everything. -/
def jvFalse : String → Bool := fun _ => false

/-- A `hujson.Standardize` oracle that always fails. -/
def stFail : String → Except String String := fun _ => .error "hujson: parse error"

/-- A response body that the error-shape decoder below understands. -/
def bodyRedirect : String := "message redirect body"

/-- A second response body the error-shape decoder understands. -/
def bodyError : String := "message error body"

/-- A concrete `json.Unmarshal`-into-`APIError` oracle: decodes the two
known bodies, rejects everything else. -/
def ueW : String → Except String (String × List APIErrorData) := fun s =>
  if s = bodyRedirect then .ok ("redirect", [])
  else if s = bodyError then .ok ("error", [])
  else .error "invalid error body"

/-- A concrete `json.Marshal` oracle. -/
def marshalW : Json → Except String String := fun _ => .ok "marshalled body"

/-- A concrete DNS-preferences body value. -/
def prefsW : Json := Json.obj [("magicDNS", Json.bool true)]

/-- A transport that must never be consulted. -/
def transportUnreachable : Request → Except String Response :=
  fun _ => .error "transport must not be reached"

/-- A concrete raw ACL text. -/
def aclTextW : String := "acl text with // comment"

/-- The validation failure the decoder below produces. -/
def aErrW : APIError := ⟨"bad acl", [⟨"user1", ["rule broken"]⟩], 0⟩

/-- A typed decoder into `APIError` keyed on `bodyError`. -/
def uoW : String → APIError → Except String APIError := fun s cur =>
  if s = bodyError then .ok ⟨"bad acl", [⟨"user1", ["rule broken"]⟩], cur.status⟩
  else .error "invalid json"

/-- A transport answering 200 with `bodyError`. -/
def transportW : Request → Except String Response := fun _ => .ok ⟨200, bodyError⟩

/-- Fallback request value for extracting a successful build result. -/
def defaultRequest : Request := ⟨"", [], "", [], Option.none⟩

/-- The request Validate builds for `aclTextW` on `cW`. -/
def vreqW : Request :=
  (cW.buildRequest (some ()) "POST" (cW.buildTailnetURL aclValidateElems)
      (validateReqOpts (ACLBody.str aclTextW)) marshalW).toOption.getD defaultRequest

/-- A raw string body whose bytes must travel unmodified. -/
def sW : String := "raw policy text, with trailing comma,"

/-- A concrete target URL for the request-builder theorems. -/
def uriW : List Char := "/api/v2/tailnet/example.com/acl".toList

/-- The request built from the raw string body `sW`. -/
def reqW : Request :=
  (cW.buildRequest (some ()) "POST" uriW [requestBody (.str sW)] marshalW).toOption.getD
    defaultRequest

/-- A path-element list containing a slash and a space. -/
def elemsW : List (List Char) := ["net/work name".toList]

deriving instance DecidableEq for Except

/-! ## Theorems -/

/-- C5: the typed Duration codec: decoding the empty text, JSON `null`,
and the text `"0s"` each yield the zero duration; encoding the zero
duration yields `"0s"`; encoding 15 seconds yields `"15s"`. -/
theorem duration_codec_spec :
    durationUnmarshalText "" = .ok 0 ∧
    jsonDecodeDuration Json.null 0 = .ok 0 ∧
    durationUnmarshalText "0s" = .ok 0 ∧
    durationMarshalText 0 = "0s" ∧
    durationMarshalText (15 * 1000000000) = "15s" := by
  decide

/-- C6: the typed nullable timestamp codec: the raw JSON bytes of an
empty string keep the zero timestamp, a valid RFC 3339 UTC timestamp
decodes to the corresponding UTC instant (civil fields 2022-03-05
17:10:27, zone offset 0; Unix second 1646500227), and a month of 13 is a
decode error. -/
theorem time_codec_spec :
    tsTimeUnmarshalJSON "\"\"" zeroGoTime = .ok zeroGoTime ∧
    tsTimeUnmarshalJSON "\"2022-03-05T17:10:27Z\"" zeroGoTime =
      .ok ⟨2022, 3, 5, 17, 10, 27, 0, 0⟩ ∧
    gotimeUnix ⟨2022, 3, 5, 17, 10, 27, 0, 0⟩ = 1646500227 ∧
    exceptOk (tsTimeUnmarshalJSON "\"2022-13-05T17:10:27Z\"" zeroGoTime) = false := by
  decide

/-- C7: on a 2xx response with a raw-bytes output destination, the
normalizer copies the body verbatim and succeeds, for every body and
independently of the JSON-validity, standardization and decoding
collaborators (so no JSON checking or transformation can influence this
path). -/
theorem do_rawBytes_copies_verbatim {α : Type}
    (uo : String → α → Except String α)
    (ue : String → Except String (String × List APIErrorData))
    (jv : String → Bool) (st : String → Except String String)
    (res : Response) (b0 : String)
    (h1 : 200 ≤ res.statusCode) (h2 : res.statusCode < 300) :
    clientDo uo ue jv st (.ok res) (Out.rawBytes b0) = (.ok (), Out.rawBytes res.body) := by
  unfold clientDo
  simp [h1, h2]

/-- Witness for C7: a 200 response whose body is not JSON, against
collaborators that declare everything invalid and fail to standardize,
still lands verbatim in the raw-bytes destination. -/
theorem do_rawBytes_copies_verbatim_witness :
    (200 ≤ 200 ∧ 200 < 300) ∧
    clientDo uoU ueW jvFalse stFail (.ok ⟨200, "not json at all"⟩)
      (Out.rawBytes "old") = (.ok (), Out.rawBytes "not json at all") :=
  ⟨by decide,
    do_rawBytes_copies_verbatim uoU ueW jvFalse stFail ⟨200, "not json at all"⟩ "old"
      (by decide) (by decide)⟩

/-- C10: a response with status in 300-399 makes the v2 normalizer return
success without decoding anything and without touching the output
destination, whatever its kind and for every collaborator. -/
theorem do_3xx_success_out_unchanged {α : Type}
    (uo : String → α → Except String α)
    (ue : String → Except String (String × List APIErrorData))
    (jv : String → Bool) (st : String → Except String String)
    (res : Response) (out : Out α)
    (h1 : 300 ≤ res.statusCode) (h2 : res.statusCode < 400) :
    clientDo uo ue jv st (.ok res) out = (.ok (), out) := by
  unfold clientDo
  have hs : ¬ (200 ≤ res.statusCode ∧ res.statusCode < 300) := by omega
  have he : ¬ (400 ≤ res.statusCode) := by omega
  simp [hs, he]

/-- Witness for C10: a 302 response with a decodable error body leaves a
typed destination untouched and returns success. -/
theorem do_3xx_success_out_unchanged_witness :
    (300 ≤ 302 ∧ 302 < 400) ∧
    clientDo uoW ueW jvTrue stFail (.ok ⟨302, bodyRedirect⟩)
      (Out.typed zeroAPIError) = (.ok (), Out.typed zeroAPIError) :=
  ⟨by decide,
    do_3xx_success_out_unchanged uoW ueW jvTrue stFail ⟨302, bodyRedirect⟩
      (Out.typed zeroAPIError) (by decide) (by decide)⟩

/-- C1 (amended): for every executed request whose response status is at
least 400 and whose body decodes as the structured API error shape, the
v2 normalizer returns that structured error with the numeric status
attached. -/
theorem do_error_status_decodes {α : Type}
    (uo : String → α → Except String α)
    (ue : String → Except String (String × List APIErrorData))
    (jv : String → Bool) (st : String → Except String String)
    (res : Response) (out : Out α) (msg : String) (data : List APIErrorData)
    (h4 : 400 ≤ res.statusCode) (hdec : ue res.body = .ok (msg, data)) :
    clientDo uo ue jv st (.ok res) out =
      (.error (.api ⟨msg, data, res.statusCode⟩), out) := by
  unfold clientDo
  have hs : ¬ (200 ≤ res.statusCode ∧ res.statusCode < 300) := by omega
  simp [hs, h4, hdec]

/-- Witness for C1 (amended): a 404 whose body decodes as the error shape
comes back as the structured error carrying status 404. -/
theorem do_error_status_decodes_witness :
    (400 ≤ 404) ∧ ueW bodyError = .ok ("error", []) ∧
    clientDo uoU ueW jvTrue stFail (.ok ⟨404, bodyError⟩) (Out.none (α := Unit)) =
      (.error (.api ⟨"error", [], 404⟩), Out.none) :=
  ⟨by decide, by decide,
    do_error_status_decodes uoU ueW jvTrue stFail ⟨404, bodyError⟩ Out.none "error" []
      (by decide) (by decide)⟩

/-- Counterexample to C1 as stated: status 302 lies outside 200-299 and
the body decodes as the structured API error shape, yet the v2 normalizer
returns success rather than the structured error. -/
theorem do_302_counterexample :
    ¬ (200 ≤ 302 ∧ 302 < 300) ∧
    ueW bodyRedirect = .ok ("redirect", []) ∧
    clientDo uoU ueW jvTrue stFail (.ok ⟨302, bodyRedirect⟩) (Out.none (α := Unit)) =
      (.ok (), Out.none) := by
  decide

/-- Whether an error is an `APIError` with status 404, as a proposition
(helper for the `IsNotFound` characterization). -/
theorem isNotFound_iff (err : DoError) :
    isNotFound err = true ↔ ∃ a, err = .api a ∧ a.status = 404 := by
  cases err <;> simp [isNotFound]

/-- C9: every structured API error the normalizer returns carries the
status of the response it was decoded from, which is never zero; and
`IsNotFound` holds for a returned error exactly when it is a structured
API error with status 404. -/
theorem do_apiError_status_invariant {α : Type}
    (uo : String → α → Except String α)
    (ue : String → Except String (String × List APIErrorData))
    (jv : String → Bool) (st : String → Except String String)
    (res : Response) (out out' : Out α) (err : DoError)
    (h : clientDo uo ue jv st (.ok res) out = (.error err, out')) :
    (∀ a, err = .api a → a.status = res.statusCode ∧ a.status ≠ 0) ∧
    (isNotFound err = true ↔ ∃ a, err = .api a ∧ a.status = 404) := by
  refine ⟨?_, isNotFound_iff err⟩
  intro a ha
  subst ha
  unfold clientDo at h
  by_cases hs : 200 ≤ res.statusCode ∧ res.statusCode < 300
  · simp only [hs, if_true] at h
    cases out with
    | none => simp at h
    | rawBytes b => simp at h
    | typed cur =>
      rcases h1 : (if jv res.body then Except.ok res.body else st res.body) with e | b
      · simp only [h1] at h
        simp at h
      · simp only [h1] at h
        rcases h2 : uo b cur with e2 | v
        · simp only [h2] at h
          simp at h
        · simp only [h2] at h
          simp at h
  · simp only [hs, if_false] at h
    by_cases h4 : 400 ≤ res.statusCode
    · simp only [h4, if_true] at h
      rcases h3 : ue res.body with e3 | md
      · simp only [h3] at h
        simp at h
      · rcases md with ⟨msg, data⟩
        simp only [h3] at h
        simp only [Prod.mk.injEq] at h
        obtain ⟨h5, -⟩ := h
        cases h5
        refine ⟨rfl, ?_⟩
        simp only [ne_eq]
        omega
    · simp only [h4, if_false] at h
      simp at h

/-- Witness for C9: the 404 outcome of the normalizer satisfies the status
invariant and the `IsNotFound` characterization. -/
theorem do_apiError_status_invariant_witness :
    (∀ a, DoError.api ⟨"error", [], 404⟩ = .api a → a.status = 404 ∧ a.status ≠ 0) ∧
    (isNotFound (.api ⟨"error", [], 404⟩) = true ↔
      ∃ a, DoError.api ⟨"error", [], 404⟩ = .api a ∧ a.status = 404) :=
  do_apiError_status_invariant uoU ueW jvTrue stFail ⟨404, bodyError⟩
    (Out.none (α := Unit)) Out.none (.api ⟨"error", [], 404⟩) (by decide)

/-- A successfully built request carries exactly the bytes the body
switch produced (helper shared by the request-builder theorems). -/
theorem buildRequest_ok_bodyBytes (c : Client) (ctx : Option Unit) (method : String)
    (uri : List Char) (opts : List (RequestParams → RequestParams))
    (marshal : Json → Except String String) (bs : String) (r : Request)
    (hbb : bodyBytesOf marshal (applyRequestOptions opts).body = .ok bs)
    (hok : c.buildRequest ctx method uri opts marshal = .ok r) :
    r.bodyBytes = bs := by
  simp only [Client.buildRequest, hbb] at hok
  cases ctx with
  | none => simp at hok
  | some u =>
    simp only [Except.ok.injEq] at hok
    rw [← hok]

/-- C2: the three-way body policy of the request builder, checked in
order: a string body is sent byte-for-byte (whatever its content), a byte
slice is sent byte-for-byte, and any other body value is sent as its JSON
marshalling. -/
theorem buildRequest_body_policy (c : Client) (ctx : Option Unit) (method : String)
    (uri : List Char) (opts : List (RequestParams → RequestParams))
    (marshal : Json → Except String String) :
    (∀ s r, (applyRequestOptions opts).body = some (.str s) →
      c.buildRequest ctx method uri opts marshal = .ok r → r.bodyBytes = s) ∧
    (∀ b r, (applyRequestOptions opts).body = some (.bytes b) →
      c.buildRequest ctx method uri opts marshal = .ok r → r.bodyBytes = b) ∧
    (∀ v bs r, (applyRequestOptions opts).body = some (.typed v) → marshal v = .ok bs →
      c.buildRequest ctx method uri opts marshal = .ok r → r.bodyBytes = bs) := by
  refine ⟨?_, ?_, ?_⟩
  · intro s r hbody hok
    exact buildRequest_ok_bodyBytes c ctx method uri opts marshal s r
      (by rw [hbody]; rfl) hok
  · intro b r hbody hok
    exact buildRequest_ok_bodyBytes c ctx method uri opts marshal b r
      (by rw [hbody]; rfl) hok
  · intro v bs r hbody hm hok
    exact buildRequest_ok_bodyBytes c ctx method uri opts marshal bs r
      (by rw [hbody]; exact hm) hok

/-- Witness for C2: a raw string body containing a comma-riddled
non-JSON text reaches the built request byte-for-byte. -/
theorem buildRequest_body_policy_witness :
    (applyRequestOptions [requestBody (.str sW)]).body = some (.str sW) ∧
    cW.buildRequest (some ()) "POST" uriW [requestBody (.str sW)] marshalW = .ok reqW ∧
    reqW.bodyBytes = sW :=
  ⟨rfl, by decide,
    (buildRequest_body_policy cW (some ()) "POST" uriW [requestBody (.str sW)]
        marshalW).1 sW reqW rfl (by decide)⟩

/-- C4 (code bug): with a nil context, building the DNS SetPreferences
request fails with the construction error, yet `SetPreferences` returns
success: the `if err != nil` branch of `DNSResource.SetPreferences`
returns `nil` instead of `err`, swallowing the construction failure
without ever reaching the transport. -/
theorem setPreferences_swallows_construction_error :
    cW.buildRequest Option.none "POST"
        (cW.buildTailnetURL ["dns".toList, "preferences".toList])
        [requestBody (.typed prefsW)] marshalW = .error "net/http: nil Context" ∧
    dnsSetPreferences ueW jvTrue stFail marshalW cW Option.none prefsW
      transportUnreachable = .ok () := by
  constructor
  · rfl
  · rfl

/-- The normalizer keeps a typed output destination typed (helper for the
Validate theorem). -/
theorem clientDo_typed_shape {α : Type}
    (uo : String → α → Except String α)
    (ue : String → Except String (String × List APIErrorData))
    (jv : String → Bool) (st : String → Except String String)
    (tr : Except String Response) (cur : α) :
    ∃ a, (clientDo uo ue jv st tr (Out.typed cur)).2 = Out.typed a := by
  unfold clientDo
  rcases tr with e | res
  · exact ⟨cur, rfl⟩
  · by_cases hs : 200 ≤ res.statusCode ∧ res.statusCode < 300
    · simp only [hs, if_true]
      rcases h1 : (if jv res.body then Except.ok res.body else st res.body) with e | b
      · simp only [h1]
        exact ⟨cur, rfl⟩
      · simp only [h1]
        rcases h2 : uo b cur with e2 | v
        · simp only [h2]
          exact ⟨cur, rfl⟩
        · simp only [h2]
          exact ⟨v, rfl⟩
    · simp only [hs, if_false]
      by_cases h4 : 400 ≤ res.statusCode
      · simp only [h4, if_true]
        rcases h3 : ue res.body with e3 | md
        · simp only [h3]
          exact ⟨cur, rfl⟩
        · rcases md with ⟨msg, data⟩
          simp only [h3]
          exact ⟨cur, rfl⟩
      · simp only [h4, if_false]
        exact ⟨cur, rfl⟩

/-- C8: for an ACL validation call whose round trip succeeds (here under a
success status) with a decoded body carrying a non-empty message, Validate
returns the application-level validation failure; and Validate returns
success only when the round trip succeeded and the decoded message is
empty. -/
theorem validate_message_policy
    (uo : String → APIError → Except String APIError)
    (ue : String → Except String (String × List APIErrorData))
    (jv : String → Bool) (st : String → Except String String)
    (marshal : Json → Except String String) (c : Client) (ctx : Option Unit)
    (acl : ACLBody) (transport : Request → Except String Response)
    (req : Request) (res : Response)
    (hacl : acl ≠ ACLBody.other)
    (hbuild : c.buildRequest ctx "POST" (c.buildTailnetURL aclValidateElems)
      (validateReqOpts acl) marshal = .ok req)
    (_htr : transport req = .ok res)
    (_h2xx : 200 ≤ res.statusCode ∧ res.statusCode < 300) :
    (∀ a, clientDo uo ue jv st (transport req) (Out.typed zeroAPIError) =
        (.ok (), Out.typed a) → a.message ≠ "" →
      policyFileValidate uo ue jv st marshal c ctx acl transport =
        .error (.validationFailed a.message a.data)) ∧
    (policyFileValidate uo ue jv st marshal c ctx acl transport = .ok () →
      ∃ a, clientDo uo ue jv st (transport req) (Out.typed zeroAPIError) =
        (.ok (), Out.typed a) ∧ a.message = "") := by
  constructor
  · intro a hdo hmsg
    cases acl with
    | other => exact absurd rfl hacl
    | typed v =>
      simp only [policyFileValidate]
      rw [hbuild]
      simp [hdo, typedValue, hmsg]
    | str s =>
      simp only [policyFileValidate]
      rw [hbuild]
      simp [hdo, typedValue, hmsg]
  · intro hok
    obtain ⟨a, ha⟩ := clientDo_typed_shape uo ue jv st (transport req) zeroAPIError
    rcases hdo : clientDo uo ue jv st (transport req) (Out.typed zeroAPIError)
      with ⟨r, out'⟩
    rw [hdo] at ha
    simp only at ha
    subst ha
    cases acl with
    | other => exact absurd rfl hacl
    | typed v =>
      simp only [policyFileValidate, hbuild, hdo] at hok
      rcases r with e | u
      · simp at hok
      · cases u
        simp only [typedValue] at hok
        by_cases hm : a.message = ""
        · exact ⟨a, rfl, hm⟩
        · simp [hm] at hok
    | str s =>
      simp only [policyFileValidate, hbuild, hdo] at hok
      rcases r with e | u
      · simp at hok
      · cases u
        simp only [typedValue] at hok
        by_cases hm : a.message = ""
        · exact ⟨a, rfl, hm⟩
        · simp [hm] at hok

/-- Witness for C8: a 200 response whose body decodes to a non-empty
validation message makes Validate fail with that message and data. -/
theorem validate_message_policy_witness :
    ACLBody.str aclTextW ≠ ACLBody.other ∧
    transportW vreqW = .ok ⟨200, bodyError⟩ ∧
    (200 ≤ 200 ∧ 200 < 300) ∧
    clientDo uoW ueW jvTrue stFail (transportW vreqW) (Out.typed zeroAPIError) =
      (.ok (), Out.typed aErrW) ∧
    policyFileValidate uoW ueW jvTrue stFail marshalW cW (some ())
      (ACLBody.str aclTextW) transportW =
      .error (.validationFailed aErrW.message aErrW.data) :=
  ⟨by intro h; exact ACLBody.noConfusion h, by decide, by decide, by decide,
    (validate_message_policy uoW ueW jvTrue stFail marshalW cW (some ())
        (ACLBody.str aclTextW) transportW vreqW ⟨200, bodyError⟩
        (by intro h; exact ACLBody.noConfusion h) (by decide) (by decide)
        (by decide)).1 aErrW (by decide) (by decide)⟩

/-! ### Lemmas about splitting, joining and cleaning URL paths -/

/-- Splitting after a leading separator yields a leading empty segment. -/
theorem splitOnChar_cons_sep (sep : Char) (xs : List Char) :
    splitOnChar sep (sep :: xs) = [] :: splitOnChar sep xs := by
  simp [splitOnChar]

/-- Splitting never yields the empty list of segments. -/
theorem splitOnChar_ne_nil (sep : Char) (xs : List Char) :
    splitOnChar sep xs ≠ [] := by
  induction xs with
  | nil => simp [splitOnChar]
  | cons c rest ih =>
    unfold splitOnChar
    by_cases h : c = sep
    · simp [h]
    · simp only [h, if_false]
      rcases hr : splitOnChar sep rest with _ | ⟨s, ss⟩
      · exact absurd hr ih
      · simp

/-- A separator-free text is a single segment. -/
theorem splitOnChar_not_mem (sep : Char) (xs : List Char) (h : sep ∉ xs) :
    splitOnChar sep xs = [xs] := by
  induction xs with
  | nil => rfl
  | cons c rest ih =>
    have hc : c ≠ sep := fun hc => h (hc ▸ List.mem_cons_self c rest)
    have hrest : sep ∉ rest := fun hr => h (List.mem_cons_of_mem c hr)
    unfold splitOnChar
    simp only [hc, if_false]
    rw [ih hrest]

/-- Splitting a separator-free prefix followed by a separator peels the
prefix off as one segment. -/
theorem splitOnChar_append_sep (sep : Char) (xs ys : List Char) (h : sep ∉ xs) :
    splitOnChar sep (xs ++ sep :: ys) = xs :: splitOnChar sep ys := by
  induction xs with
  | nil => simpa using splitOnChar_cons_sep sep ys
  | cons c rest ih =>
    have hc : c ≠ sep := fun hc => h (hc ▸ List.mem_cons_self c rest)
    have hrest : sep ∉ rest := fun hr => h (List.mem_cons_of_mem c hr)
    rw [List.cons_append, splitOnChar]
    simp only [hc, if_false]
    rw [ih hrest]

/-- `joinSep` on a list with a non-empty tail starts with the head, a
separator, and the joined tail. -/
theorem joinSep_cons (x : List Char) (xs : List (List Char)) (h : xs ≠ []) :
    joinSep (x :: xs) = x ++ '/' :: joinSep xs := by
  cases xs with
  | nil => exact absurd rfl h
  | cons y ys => rfl

/-- `joinSep` distributes over append with a separator in between. -/
theorem joinSep_append (xs ys : List (List Char)) (hx : xs ≠ []) (hy : ys ≠ []) :
    joinSep (xs ++ ys) = joinSep xs ++ '/' :: joinSep ys := by
  induction xs with
  | nil => exact absurd rfl hx
  | cons x rest ih =>
    cases rest with
    | nil =>
      simp only [List.nil_append, List.singleton_append]
      rw [joinSep_cons x ys hy]
      rfl
    | cons y rs =>
      rw [List.cons_append, joinSep_cons x ((y :: rs) ++ ys) (by simp),
        joinSep_cons x (y :: rs) (by simp), ih (by simp)]
      simp

/-- Splitting a join of separator-free segments recovers the segments. -/
theorem splitOnChar_joinSep :
    ∀ (l : List (List Char)), l ≠ [] → (∀ s ∈ l, '/' ∉ s) →
      splitOnChar '/' (joinSep l) = l
  | [], h, _ => absurd rfl h
  | [x], _, h => by
    simpa [joinSep] using splitOnChar_not_mem '/' x (h x (by simp))
  | x :: y :: rest, _, h => by
    have hx : '/' ∉ x := h x (by simp)
    have ih := splitOnChar_joinSep (y :: rest) (by simp)
      (fun s hs => h s (List.mem_cons_of_mem x hs))
    rw [joinSep_cons x (y :: rest) (by simp), splitOnChar_append_sep '/' x _ hx, ih]

/-- A segment is kept verbatim by `path.Clean`: non-empty and neither `.`
nor `..`. -/
def normalSeg (s : List Char) : Prop :=
  s ≠ [] ∧ s ≠ ['.'] ∧ s ≠ ['.', '.']

instance normalSegDecidable (s : List Char) : Decidable (normalSeg s) := by
  unfold normalSeg
  infer_instance

/-- The clean loop keeps a list of normal segments unchanged (pushed onto
the output stack in reverse). -/
theorem processSegs_normal :
    ∀ (l : List (List Char)), (∀ s ∈ l, normalSeg s) →
      ∀ out, processSegs true l out = l.reverse ++ out
  | [], _, out => by simp [processSegs]
  | s :: rest, h, out => by
    obtain ⟨h1, h2, h3⟩ := h s (by simp)
    have ih := processSegs_normal rest (fun t ht => h t (List.mem_cons_of_mem s ht))
    unfold processSegs
    rw [if_neg (by simp [h1, h2]), if_neg h3, ih (s :: out)]
    simp

/-- The clean loop drops leading empty segments. -/
theorem processSegs_empty (l : List (List Char)) (out : List (List Char)) :
    processSegs true ([] :: l) out = processSegs true l out := rfl

/-! ### Lemmas about percent-escaping -/

/-- Every UTF-8 byte is below 256. -/
theorem utf8Bytes_lt256 (c : Char) : ∀ b ∈ utf8Bytes c, b < 256 := by
  intro b hb
  have hv : c.toNat < 0x110000 := by
    have hval := c.valid
    rcases hval with h | ⟨_, h⟩ <;> (simp [Char.toNat]; omega)
  simp only [utf8Bytes] at hb
  split_ifs at hb with h1 h2 h3
  · simp at hb
    omega
  · have hd : c.toNat / 0x40 < 0x20 := Nat.div_lt_of_lt_mul (by omega)
    have hm : c.toNat % 0x40 < 0x40 := Nat.mod_lt _ (by omega)
    simp at hb
    rcases hb with hb | hb <;> omega
  · have hd : c.toNat / 0x1000 < 0x10 := Nat.div_lt_of_lt_mul (by omega)
    have hm1 : c.toNat / 0x40 % 0x40 < 0x40 := Nat.mod_lt _ (by omega)
    have hm : c.toNat % 0x40 < 0x40 := Nat.mod_lt _ (by omega)
    simp at hb
    rcases hb with hb | hb | hb <;> omega
  · have hd : c.toNat / 0x40000 < 5 := Nat.div_lt_of_lt_mul (by omega)
    have hm2 : c.toNat / 0x1000 % 0x40 < 0x40 := Nat.mod_lt _ (by omega)
    have hm1 : c.toNat / 0x40 % 0x40 < 0x40 := Nat.mod_lt _ (by omega)
    have hm : c.toNat % 0x40 < 0x40 := Nat.mod_lt _ (by omega)
    simp at hb
    rcases hb with hb | hb | hb | hb <;> omega

/-- Hexadecimal digits are never a slash. -/
theorem hexUpper_ne_slash : ∀ n < 16, hexUpper n ≠ '/' := by decide

/-- The characters of one escaped byte. -/
theorem mem_escByte (b : Nat) (d : Char) (h : d ∈ escByte b) :
    d = '%' ∨ d = hexUpper (b / 16) ∨ d = hexUpper (b % 16) := by
  simpa [escByte] using h

/-- No slash ever appears in the escape of a character. -/
theorem slash_not_mem_escChar (c : Char) : '/' ∉ escChar c := by
  unfold escChar
  have hlt := utf8Bytes_lt256 c
  generalize hbs : utf8Bytes c = bs at hlt
  clear hbs
  induction bs with
  | nil => simp
  | cons b rest ih =>
    simp only [List.foldr_cons, List.mem_append, not_or]
    refine ⟨?_, ih (fun x hx => hlt x (List.mem_cons_of_mem b hx))⟩
    intro hmem
    have hb : b < 256 := hlt b (by simp)
    rcases mem_escByte b '/' hmem with h | h | h
    · exact absurd h.symm (by decide)
    · exact hexUpper_ne_slash (b / 16) (Nat.div_lt_of_lt_mul (by omega)) h.symm
    · exact hexUpper_ne_slash (b % 16) (Nat.mod_lt _ (by omega)) h.symm

/-- The escape of a character is never empty. -/
theorem escChar_ne_nil (c : Char) : escChar c ≠ [] := by
  simp only [escChar, utf8Bytes]
  split_ifs <;> simp [escByte]

/-- The escape of a character always contains the percent sign. -/
theorem percent_mem_escChar (c : Char) : '%' ∈ escChar c := by
  simp only [escChar, utf8Bytes]
  split_ifs <;> simp [escByte]

/-- An unescaped character is not a slash. -/
theorem ne_slash_of_not_shouldEscape (c : Char) (h : shouldEscape c = false) :
    c ≠ '/' := by
  intro hc
  subst hc
  exact absurd h (by decide)

/-- `PathEscape` never emits a slash. -/
theorem slash_not_mem_pathEscape (e : List Char) : '/' ∉ pathEscape e := by
  induction e with
  | nil => simp [pathEscape]
  | cons c rest ih =>
    unfold pathEscape
    simp only [List.mem_append, not_or]
    refine ⟨?_, ih⟩
    by_cases h : shouldEscape c = true
    · simpa [h] using slash_not_mem_escChar c
    · have hc : '/' ≠ c := Ne.symm (ne_slash_of_not_shouldEscape c (by simpa using h))
      simp [h, hc]

/-- Escaping a non-empty element yields a non-empty segment. -/
theorem pathEscape_ne_nil (e : List Char) (h : e ≠ []) : pathEscape e ≠ [] := by
  cases e with
  | nil => exact absurd rfl h
  | cons c rest =>
    unfold pathEscape
    simp only [ne_eq, List.append_eq_nil, not_and]
    intro hchunk
    by_cases hsc : shouldEscape c = true
    · rw [if_pos hsc] at hchunk
      exact absurd hchunk (escChar_ne_nil c)
    · rw [if_neg hsc] at hchunk
      simp at hchunk

/-- Every character of the escape chunk of a member appears in the
escaped element. -/
theorem chunk_subset_pathEscape (e : List Char) (c : Char) (hc : c ∈ e) :
    ∀ d ∈ (if shouldEscape c then escChar c else [c]), d ∈ pathEscape e := by
  induction e with
  | nil => cases hc
  | cons a rest ih =>
    intro d hd
    unfold pathEscape
    rcases List.mem_cons.mp hc with h | h
    · subst h
      exact List.mem_append_left _ hd
    · exact List.mem_append_right _ (ih h d hd)

/-- An element whose characters all survive escaping is left unchanged. -/
theorem pathEscape_all_unescaped (e : List Char)
    (h : ∀ c ∈ e, shouldEscape c = false) : pathEscape e = e := by
  induction e with
  | nil => rfl
  | cons c rest ih =>
    unfold pathEscape
    rw [if_neg (by simp [h c (by simp)]), ih (fun x hx => h x (List.mem_cons_of_mem c hx))]
    rfl

/-- If the escape of an element is a pure run of dots, the element was
that run of dots already (dots are never produced by escaping). -/
theorem pathEscape_dots (d e : List Char) (hd : ∀ x ∈ d, x = '.')
    (heq : pathEscape e = d) : e = d := by
  have hun : ∀ c ∈ e, shouldEscape c = false := by
    intro c hc
    by_cases hsc : shouldEscape c = true
    · have hmem : '%' ∈ pathEscape e :=
        chunk_subset_pathEscape e c hc '%' (by simp [hsc, percent_mem_escChar])
      rw [heq] at hmem
      exact absurd (hd '%' hmem) (by decide)
    · simpa using hsc
  rw [← pathEscape_all_unescaped e hun]
  exact heq

/-- Escaping a normal element yields a normal segment. -/
theorem pathEscape_normal (e : List Char) (h : normalSeg e) :
    normalSeg (pathEscape e) := by
  refine ⟨pathEscape_ne_nil e h.1, ?_, ?_⟩
  · intro heq
    exact h.2.1 (pathEscape_dots ['.'] e (by decide) heq)
  · intro heq
    exact h.2.2 (pathEscape_dots ['.', '.'] e (by decide) heq)

/-! ### Small list helpers -/

/-- The default of `getLastD` is irrelevant on a non-empty list. -/
theorem getLastD_ne_nil_irrel {α : Type} (ys : List α) (h : ys ≠ []) (a b : α) :
    ys.getLastD a = ys.getLastD b := by
  cases ys with
  | nil => exact absurd rfl h
  | cons c t =>
    rw [List.getLastD_eq_getLast?, List.getLastD_eq_getLast?,
      List.getLast?_eq_getLast_of_ne_nil (by simp)]
    rfl

/-- `getLastD` over an append with a non-empty right part ignores the
left part. -/
theorem getLastD_append_right {α : Type} (xs ys : List α) (h : ys ≠ []) :
    ∀ d, (xs ++ ys).getLastD d = ys.getLastD d := by
  induction xs with
  | nil => intro d; rfl
  | cons x rest ih =>
    intro d
    rw [List.cons_append, List.getLastD_cons, ih x]
    exact getLastD_ne_nil_irrel ys h x d

/-- The `getLastD` of a non-empty list is a member. -/
theorem getLastD_mem {α : Type} :
    ∀ (l : List α), l ≠ [] → ∀ d, l.getLastD d ∈ l
  | [], h, _ => absurd rfl h
  | [c], _, d => by simp [List.getLastD]
  | c :: x :: xs, _, d => by
    rw [List.getLastD_cons]
    exact List.mem_cons_of_mem c (getLastD_mem (x :: xs) (by simp) c)

/-- A non-member is never the `getLast?`. -/
theorem getLast?_ne_some_of_not_mem {α : Type} (l : List α) (c : α) (h : c ∉ l) :
    l.getLast? ≠ some c := by
  intro hl
  have hm : c ∈ l.getLast? := by rw [Option.mem_def]; exact hl
  obtain ⟨hne, heq⟩ := List.mem_getLast?_eq_getLast hm
  exact h (heq ▸ List.getLast_mem hne)

/-- The joined and cleaned `/api/v2` path over normal slash-free segments:
its rendered segments are `api`, `v2`, then the segments in order. -/
theorem urlJoinPath_segments (maps : List (List Char))
    (hnorm : ∀ s ∈ maps, normalSeg s) (hslash : ∀ s ∈ maps, '/' ∉ s) :
    urlPathSegments (requestPath (urlJoinPath [] ("/api/v2".toList :: maps))) =
      "api".toList :: "v2".toList :: maps := by
  cases maps with
  | nil => decide
  | cons m ms =>
    have hm0 : (m :: ms : List (List Char)) ≠ [] := by simp
    have hJ : joinSep ((['/'] : List Char) :: "/api/v2".toList :: m :: ms) =
        '/' :: '/' :: '/' :: 'a' :: 'p' :: 'i' :: '/' :: 'v' :: '2' ::
          '/' :: joinSep (m :: ms) := by
      rw [joinSep_cons _ _ (by simp), joinSep_cons _ _ (by simp)]
      rfl
    have hsplit : splitOnChar '/'
        ('/' :: '/' :: '/' :: 'a' :: 'p' :: 'i' :: '/' :: 'v' :: '2' ::
          '/' :: joinSep (m :: ms)) =
        [] :: [] :: [] :: "api".toList :: "v2".toList :: m :: ms := by
      rw [splitOnChar_cons_sep, splitOnChar_cons_sep, splitOnChar_cons_sep]
      rw [show ('a' :: 'p' :: 'i' :: '/' :: 'v' :: '2' :: '/' :: joinSep (m :: ms)) =
        ("api".toList ++ '/' :: ('v' :: '2' :: '/' :: joinSep (m :: ms))) from rfl]
      rw [splitOnChar_append_sep '/' _ _ (by decide)]
      rw [show ('v' :: '2' :: '/' :: joinSep (m :: ms)) =
        ("v2".toList ++ '/' :: joinSep (m :: ms)) from rfl]
      rw [splitOnChar_append_sep '/' _ _ (by decide)]
      rw [splitOnChar_joinSep (m :: ms) hm0 hslash]
    have hproc : processSegs true
        ([] :: [] :: [] :: "api".toList :: "v2".toList :: m :: ms) [] =
        ("api".toList :: "v2".toList :: m :: ms).reverse ++ [] := by
      rw [processSegs_empty, processSegs_empty, processSegs_empty]
      refine processSegs_normal _ ?_ []
      intro s hs
      rcases List.mem_cons.mp hs with h | hs2
      · subst h; decide
      rcases List.mem_cons.mp hs2 with h | hs3
      · subst h; decide
      · exact hnorm s hs3
    have hclean : pathClean
        ('/' :: '/' :: '/' :: 'a' :: 'p' :: 'i' :: '/' :: 'v' :: '2' ::
          '/' :: joinSep (m :: ms)) =
        '/' :: joinSep ("api".toList :: "v2".toList :: m :: ms) := by
      rw [pathClean, if_neg (by simp), if_pos (by rfl), pathCleanBody, hsplit, hproc]
      simp
    have hlastD : ((([] : List Char) :: "/api/v2".toList :: m :: ms)).getLastD [] =
        (m :: ms).getLastD [] := by
      rw [show (([] : List Char) :: "/api/v2".toList :: m :: ms) =
        ([[], "/api/v2".toList] ++ (m :: ms)) from rfl]
      exact getLastD_append_right _ _ hm0 []
    have hgl : ((m :: ms).getLastD []).getLast? ≠ some '/' :=
      getLast?_ne_some_of_not_mem _ '/' (hslash _ (getLastD_mem (m :: ms) hm0 []))
    have hbody : joinSep ("api".toList :: "v2".toList :: m :: ms) =
        'a' :: 'p' :: 'i' :: '/' :: joinSep ("v2".toList :: m :: ms) := by
      rw [joinSep_cons _ _ (by simp)]
      rfl
    have hall : ∀ s ∈ ("api".toList :: "v2".toList :: m :: ms), '/' ∉ s := by
      intro s hs
      rcases List.mem_cons.mp hs with h | hs2
      · subst h; decide
      rcases List.mem_cons.mp hs2 with h | hs3
      · subst h; decide
      · exact hslash s hs3
    rw [urlJoinPath, if_neg (by simp)]
    rw [show pathJoin ((('/' :: []) : List Char) :: "/api/v2".toList :: m :: ms) =
      pathClean (joinSep ((['/'] : List Char) :: "/api/v2".toList :: m :: ms)) from rfl]
    rw [hJ, hclean]
    rw [show ('/' :: joinSep ("api".toList :: "v2".toList :: m :: ms)).drop 1 =
      joinSep ("api".toList :: "v2".toList :: m :: ms) from rfl]
    rw [urlJoinFix, if_neg (by
      intro hcond
      obtain ⟨h1, -⟩ := hcond
      simp only [endsSlash, decide_eq_true_eq] at h1
      rw [hlastD] at h1
      exact hgl h1)]
    rw [requestPath, if_pos (by

      constructor
      · rw [hbody]; simp
      · rw [hbody]; simp)]
    rw [urlPathSegments, splitOnChar_cons_sep, splitOnChar_joinSep _ (by simp) hall]
    rw [List.filter_cons_of_neg (by simp)]
    refine List.filter_eq_self.mpr ?_
    intro s hs
    rcases List.mem_cons.mp hs with h | hs2
    · subst h; decide
    rcases List.mem_cons.mp hs2 with h | hs3
    · subst h; decide
    · simpa using (hnorm s hs3).1

/-- C3 (amended): provided no path element is empty, `.` or `..` (all
call sites in the repository pass literal words, tailnet names or resource
IDs), `buildURL` escapes each element individually — the escape of an
element never contains a slash — and the rendered request path consists of
exactly the segments `api`, `v2`, then one segment per element. -/
theorem buildURL_escaped_segments (c : Client) (hbase : c.baseURLPath = [])
    (elems : List (List Char)) (h : ∀ e ∈ elems, normalSeg e) :
    urlPathSegments (requestPath (c.buildURL elems)) =
      "api".toList :: "v2".toList :: elems.map pathEscape ∧
    ∀ e ∈ elems, '/' ∉ pathEscape e := by
  constructor
  · rw [Client.buildURL, hbase]
    refine urlJoinPath_segments (elems.map pathEscape) ?_ ?_
    · intro s hs
      obtain ⟨e, he, rfl⟩ := List.mem_map.mp hs
      exact pathEscape_normal e (h e he)
    · intro s hs
      obtain ⟨e, he, rfl⟩ := List.mem_map.mp hs
      exact slash_not_mem_pathEscape e
  · intro e _
    exact slash_not_mem_pathEscape e

/-- Witness for C3 (amended): an element containing a slash and a space
becomes the single escaped segment `net%2Fwork%20name` after `api` and
`v2`. -/
theorem buildURL_escaped_segments_witness :
    (∀ e ∈ elemsW, normalSeg e) ∧
    urlPathSegments (requestPath (cW0.buildURL elemsW)) =
      ["api".toList, "v2".toList, "net%2Fwork%20name".toList] :=
  ⟨by decide,
    ((buildURL_escaped_segments cW0 rfl elemsW (by decide)).1).trans (by decide)⟩

/-- Counterexample to C3 as stated: with the path element sequence
`a/b` (an element containing a slash) followed by `..`, the path cleaning
inside `JoinPath` pops the escaped segment again, so the slash-containing
element contributes no path segment at all instead of exactly one. -/
theorem buildURL_dotdot_counterexample :
    '/' ∈ "a/b".toList ∧
    urlPathSegments (requestPath (cW0.buildURL ["a/b".toList, "..".toList])) =
      ["api".toList, "v2".toList] := by
  decide

end TS
